import Mathlib

/-!
Shallow embedding of the esroll rotation engine (`esroll.go`) and proofs of
the frozen specification claims.

The two external collaborators are modelled as follows:

* the Elasticsearch store is an explicit `Store` state (a list of indices and
  a list of `(index, alias)` pairs); each network operation the engine issues
  is an `Op`, applied to the state by `Store.apply`.  A failure oracle
  `fail : Op → Bool` says which issued operations fail, so that abort-on-error
  control flow can be stated;
* `humanize.ParseBytes` (third-party size parser) is a parameter
  `pb : String → Except String Nat`.

Machine integers (`int` in Go) are modelled as `Int`; the one place where a
`uint64 → int64` conversion can overflow (`HasRoom`) uses an explicit
wrap-around `toInt64`.
-/

namespace Esroll

/-- Opaque settings document (a JSON object), kept abstract as key/value
pairs; the engine never interprets its contents. -/
abbrev SettingsDoc := List (String × String)

/-- The calendar fields of an instant, as read by Go's `time.Time` accessors
(`Second`, `Minute`, `Hour`, `Day`, `YearDay`, `Month`, `Year`).  All are
non-negative in Go for the dates the program handles. -/
structure Time where
  second : Nat
  minute : Nat
  hour : Nat
  day : Nat
  yearDay : Nat
  month : Nat
  year : Nat
deriving DecidableEq

/-- `Index` from esroll.go: name, open/closed status, primary-store size. -/
structure Index where
  Name : String
  Status : String
  PriSize : Int
deriving DecidableEq

/-- `IndexConfig` from esroll.go (one rotation policy). -/
structure IndexConfig where
  Id : String := ""
  Settings : Option SettingsDoc := none
  SettingsOnRoll : Option SettingsDoc := none
  TargetIndex : String := ""
  RollIncrement : Int := 0
  RollUnit : String := ""
  RollSize : String := ""
  IndexesToAliasForSearch : Int := 0
  SearchSuffix : String := ""
  DeleteOldIndexes : Bool := false
  CloseOldIndexes : Bool := false
  OptimizeOnRoll : Bool := false
  OptimizeMaxSegments : Int := 0
deriving DecidableEq

/-- The `rollUnits` set from esroll.go (map lookup defaulting to false). -/
def rollUnits (u : String) : Bool :=
  decide (u = "bytes") || decide (u = "minutes") || decide (u = "hours") ||
  decide (u = "days") || decide (u = "months") || decide (u = "years")

/-- `IndexConfig.Validate`.  The byte-size parser (`humanize.ParseBytes`) is
the parameter `pb`.  Returns `some errorMessage` exactly when Go returns a
non-nil error. -/
def IndexConfig.Validate (config : IndexConfig) (pb : String → Except String Nat) :
    Option String :=
  if config.Id = "" then some "configuration id is missing"
  else if config.IndexesToAliasForSearch < 0 then
    some "searchIndexes must be greater than or equal to 0"
  else if config.RollUnit = "" then some "rollUnit is required"
  else if rollUnits config.RollUnit = false then
    some "rollUnit must be one of minutes, hours, days, months, or years"
  else if config.OptimizeMaxSegments < 0 then
    some "optimizeMaxSegments must be greater than or equal to 0"
  else if config.RollUnit = "bytes" then
    if config.RollSize = "" then some "rollSize is required if the rollUnit is bytes"
    else
      match pb config.RollSize with
      | Except.error e => some e
      | Except.ok maxBytes =>
          if maxBytes = 0 then some "rollSize must be greater than 0 bytes" else none
  else none

/-- `IndexConfig.SetDefaults`. -/
def IndexConfig.SetDefaults (config : IndexConfig) : IndexConfig :=
  let c1 := if config.TargetIndex = "" then { config with TargetIndex := config.Id } else config
  let c2 := if c1.SearchSuffix = "" then { c1 with SearchSuffix := "search" } else c1
  if c2.IndexesToAliasForSearch = 0 then { c2 with IndexesToAliasForSearch := 2 } else c2

/-- One hit of the configuration search.  `Source = none` models a document
on which `json.Unmarshal` fails; `Source = some c` models a document that
deserializes to the struct `c` (whose `Id` field is then overwritten from the
hit id, exactly as the Go code does). -/
structure Hit where
  Id : String
  Source : Option IndexConfig
deriving DecidableEq

/-- The search result consumed by `GetConfigs` (`res.Hits.Total`,
`res.Hits.Hits`). -/
structure SearchRes where
  Total : Nat
  Hits : List Hit
deriving DecidableEq

instance {ε α : Type _} [DecidableEq ε] [DecidableEq α] :
    DecidableEq (Except ε α) := fun a b =>
  match a, b with
  | Except.error e1, Except.error e2 =>
      if h : e1 = e2 then isTrue (by rw [h])
      else isFalse (by intro hh; cases hh; exact h rfl)
  | Except.error _, Except.ok _ => isFalse (by intro hh; cases hh)
  | Except.ok _, Except.error _ => isFalse (by intro hh; cases hh)
  | Except.ok a1, Except.ok a2 =>
      if h : a1 = a2 then isTrue (by rw [h])
      else isFalse (by intro hh; cases hh; exact h rfl)

/-- The loop body of `GetConfigs` over the hits: an undeserializable document
aborts the whole load with its error; a document failing `Validate` is only
printed and skipped; valid documents are appended in order.  Go binds the
defaulted document (`configData` with the hit id and `SetDefaults` applied)
to a local, inlined here. -/
def processHits (pb : String → Except String Nat) :
    List Hit → Except String (List IndexConfig)
  | [] => Except.ok []
  | hit :: rest =>
      match hit.Source with
      | none => Except.error "unmarshal error"
      | some configData =>
          match (({ configData with Id := hit.Id }).SetDefaults).Validate pb with
          | some _ => processHits pb rest
          | none =>
              match processHits pb rest with
              | Except.error e => Except.error e
              | Except.ok cs =>
                  Except.ok (({ configData with Id := hit.Id }).SetDefaults :: cs)

/-- `GetConfigs`: `res` is the outcome of the search request itself
(`Except.error` = the search failed). -/
def GetConfigs (pb : String → Except String Nat) (res : Except String SearchRes) :
    Except String (List IndexConfig) :=
  match res with
  | Except.error e => Except.error e
  | Except.ok r =>
      if r.Total = 0 then Except.error "configuration documents not found"
      else processHits pb r.Hits

/-- `IndexConfig.RollsOnSize`. -/
def IndexConfig.RollsOnSize (config : IndexConfig) : Bool :=
  decide (config.RollUnit = "bytes")

/-- Go's `%` on a non-negative dividend: for `a ≥ 0`, `a % b` in Go equals
`a % |b|` (the sign of the result follows the dividend). -/
def goMod (a : Nat) (b : Int) : Nat := a % b.natAbs

/-- `IndexConfig.ShouldRoll`. -/
def IndexConfig.ShouldRoll (config : IndexConfig) (t : Time) : Bool :=
  if !config.RollsOnSize then
    if config.RollUnit = "minutes" then
      let roll := decide (t.second = 0)
      if config.RollIncrement ≠ 0 then
        roll && decide (goMod t.minute config.RollIncrement = 0)
      else roll
    else if config.RollUnit = "hours" then
      let roll := decide (t.second = 0) && decide (t.minute = 0)
      if config.RollIncrement ≠ 0 then
        roll && decide (goMod t.hour config.RollIncrement = 0)
      else roll
    else
      let roll := decide (t.second = 0) && decide (t.minute = 0) && decide (t.hour = 0)
      if config.RollIncrement ≠ 0 then
        if config.RollUnit = "days" then
          roll && decide (goMod t.yearDay config.RollIncrement = 0)
        else if config.RollUnit = "months" then
          roll && decide (goMod t.month config.RollIncrement = 0)
        else if config.RollUnit = "years" then
          roll && decide (goMod t.year config.RollIncrement = 0)
        else roll
      else roll
  else false

/-- `AddWork`: a clock tick is forwarded to the work queue iff its second is 0. -/
def AddWork (t : Time) : Bool := decide (t.second = 0)

/-- Zero-left-pad a natural to two digits (Go layout element `01`, `02`, …). -/
def pad2 (n : Nat) : String :=
  if n < 10 then "0" ++ toString n else toString n

/-- Zero-left-pad a natural to four digits (Go layout element `2006`). -/
def pad4 (n : Nat) : String :=
  if n < 10 then "000" ++ toString n
  else if n < 100 then "00" ++ toString n
  else if n < 1000 then "0" ++ toString n
  else toString n

/-- `IndexConfig.IndexSuffixFormat`: the Go time layout per roll unit. -/
def IndexConfig.IndexSuffixFormat (config : IndexConfig) : String :=
  if config.RollUnit = "bytes" then "2006-01-02-15-04-05"
  else if config.RollUnit = "minutes" then "2006-01-02-15-04"
  else if config.RollUnit = "hours" then "2006-01-02-15"
  else if config.RollUnit = "days" then "2006-01-02"
  else if config.RollUnit = "months" then "2006-01"
  else "2006"

/-- Go's `t.Format layout` for the six layouts the program uses. -/
def Time.goFormat (t : Time) (layout : String) : String :=
  if layout = "2006-01-02-15-04-05" then
    pad4 t.year ++ "-" ++ pad2 t.month ++ "-" ++ pad2 t.day ++ "-" ++
      pad2 t.hour ++ "-" ++ pad2 t.minute ++ "-" ++ pad2 t.second
  else if layout = "2006-01-02-15-04" then
    pad4 t.year ++ "-" ++ pad2 t.month ++ "-" ++ pad2 t.day ++ "-" ++
      pad2 t.hour ++ "-" ++ pad2 t.minute
  else if layout = "2006-01-02-15" then
    pad4 t.year ++ "-" ++ pad2 t.month ++ "-" ++ pad2 t.day ++ "-" ++ pad2 t.hour
  else if layout = "2006-01-02" then
    pad4 t.year ++ "-" ++ pad2 t.month ++ "-" ++ pad2 t.day
  else if layout = "2006-01" then
    pad4 t.year ++ "-" ++ pad2 t.month
  else if layout = "2006" then
    pad4 t.year
  else ""

/-- `IndexConfig.NextIndex`. -/
def IndexConfig.NextIndex (config : IndexConfig) (t : Time) : String :=
  config.TargetIndex ++ "_" ++ t.goFormat config.IndexSuffixFormat

/-- Elasticsearch name-pattern matching as the program uses it: the two
patterns issued are an exact name (the size query) and `prefix ++ "*"`
(the family enumeration).  Implemented over the character list to stay
kernel-reducible. -/
def patMatch (pattern name : String) : Bool :=
  if pattern.data.getLast? = some '*' then
    List.isPrefixOf pattern.data.dropLast name.data
  else decide (pattern = name)

/-- The modelled Elasticsearch state: the existing indices and the set of
`(index name, alias name)` pairs. -/
structure Store where
  indices : List Index
  aliases : List (String × String)
deriving DecidableEq

/-- `conn.ExistsIndex` (HEAD request): true when some index or some alias
matches the name. -/
def Store.existsIndex (s : Store) (name : String) : Bool :=
  s.indices.any (fun i => patMatch name i.Name) ||
    s.aliases.any (fun p => patMatch name p.2)

/-- `conn.GetCatIndexInfo pattern`: the indices whose name matches the
pattern or that hold an alias matching the pattern. -/
def Store.catIndexInfo (s : Store) (pattern : String) : List Index :=
  s.indices.filter (fun i =>
    patMatch pattern i.Name ||
      s.aliases.any (fun p => decide (p.1 = i.Name) && patMatch pattern p.2))

/-- One entry of an `_aliases` batch (`UpdateAliasAction` builds its JSON
form; the wire encoding is immaterial here). -/
structure AliasAction where
  action : String
  index : String
  aliasName : String
deriving DecidableEq

/-- The network operations the rotation engine issues, in the order Go calls
them.  Comma-joined multi-index arguments are modelled as name lists. -/
inductive Op where
  | createIndex (name : String) (settings : SettingsDoc)
  | updateAliases (actions : List AliasAction)
  | deleteIndex (names : List String)
  | flush (names : List String)
  | closeIndex (names : List String)
  | putSettings (names : List String) (settings : SettingsDoc)
  | optimizeIndices (maxSegments : Option Int) (names : List String)
deriving DecidableEq

/-- Effect of one alias action on the store: `add` inserts the pair if absent
(re-adding an alias is a no-op), `remove` deletes it (removing an absent
alias is a no-op). -/
def Store.applyAliasAction (s : Store) (a : AliasAction) : Store :=
  if a.action = "add" then
    if (a.index, a.aliasName) ∈ s.aliases then s
    else { s with aliases := s.aliases ++ [(a.index, a.aliasName)] }
  else if a.action = "remove" then
    { s with aliases := s.aliases.filter (fun p => decide (p ≠ (a.index, a.aliasName))) }
  else s

/-- Effect of a successful operation on the store.  Creation registers an
open, empty index; deletion drops the indices and their alias entries;
closing flips the status; flush, settings updates and optimize do not change
the modelled state. -/
def Store.apply (s : Store) : Op → Store
  | Op.createIndex name _ =>
      if s.indices.any (fun i => decide (i.Name = name)) then s
      else { s with indices := s.indices ++ [{ Name := name, Status := "open", PriSize := 0 }] }
  | Op.updateAliases actions => actions.foldl Store.applyAliasAction s
  | Op.deleteIndex names =>
      { s with
        indices := s.indices.filter (fun i => decide (i.Name ∉ names)),
        aliases := s.aliases.filter (fun p => decide (p.1 ∉ names)) }
  | Op.flush _ => s
  | Op.closeIndex names =>
      { s with
        indices := s.indices.map (fun i =>
          if i.Name ∈ names then { i with Status := "close" } else i) }
  | Op.putSettings _ _ => s
  | Op.optimizeIndices _ _ => s

/-- Lexicographic order on character lists, written out so that it is
kernel-reducible (Lean's `String ≤` is iterator-based and is not). -/
def lexLe : List Char → List Char → Bool
  | [], _ => true
  | _ :: _, [] => false
  | a :: as, b :: bs =>
      decide (a.toNat < b.toNat) || (decide (a.toNat = b.toNat) && lexLe as bs)

/-- Go's lexicographic string order, on the character lists. -/
def strLe (a b : String) : Bool := lexLe a.data b.data

/-- Insertion of an index into a name-sorted list (used to model
`sort.Sort(ByIndexAge(indexes))`, whose order relation is `Name <`). -/
def insertByName (i : Index) : List Index → List Index
  | [] => [i]
  | j :: rest => if strLe i.Name j.Name then i :: j :: rest else j :: insertByName i rest

/-- Sorting by name, ascending — the `ByIndexAge` order. -/
def sortByName : List Index → List Index
  | [] => []
  | i :: rest => insertByName i (sortByName rest)

/-- `IndexConfig.OldIndexNames`: every index matching `TargetIndex ++ "_*"`,
with its status, sorted ascending by name (oldest first). -/
def IndexConfig.OldIndexNames (config : IndexConfig) (s : Store) : List Index :=
  let pattern := config.TargetIndex ++ "_*"
  let catIndexInfo := s.catIndexInfo pattern
  sortByName (catIndexInfo.map (fun info =>
    { Name := info.Name, Status := info.Status, PriSize := 0 }))

/-- Go's `int64(maxBytes)` conversion from `uint64`: wraps modulo `2^64`
into the signed range. -/
def toInt64 (n : Nat) : Int :=
  if n % 2 ^ 64 < 2 ^ 63 then ((n % 2 ^ 64 : Nat) : Int)
  else ((n % 2 ^ 64 : Nat) : Int) - 2 ^ 64

/-- `IndexConfig.IndexSize`: resolves the target through the cat API and
requires exactly one match. -/
def IndexConfig.IndexSize (config : IndexConfig) (s : Store) : Except String Int :=
  let catIndexInfo := s.catIndexInfo config.TargetIndex
  if catIndexInfo.length = 0 then
    Except.error "Unable to find index in size calculation"
  else if catIndexInfo.length > 1 then
    Except.error "Too many indices returned in size calculation"
  else
    Except.ok (catIndexInfo.headD { Name := "", Status := "", PriSize := 0 }).PriSize

/-- `IndexConfig.HasRoom`, mirroring Go's `(bool, error)` result. -/
def IndexConfig.HasRoom (config : IndexConfig) (pb : String → Except String Nat)
    (s : Store) : Bool × Option String :=
  if s.existsIndex config.TargetIndex = false then (false, none)
  else
    match config.IndexSize s with
    | Except.error e => (true, some e)
    | Except.ok priSize =>
        match pb config.RollSize with
        | Except.error e => (true, some e)
        | Except.ok maxBytes => (decide (priSize < toInt64 maxBytes), none)

/-- Cleanup queueing rule for a retired partition (the two `cleanup = append`
branches inside the retire case of the Roll loop). -/
def cleanupEntry (config : IndexConfig) (oldIndex : Index) : List String :=
  if config.DeleteOldIndexes then [oldIndex.Name]
  else if config.CloseOldIndexes && decide (oldIndex.Status = "open") then [oldIndex.Name]
  else []

/-- The alias plan accumulated by the Roll loop. -/
structure Plan where
  actions : List AliasAction
  cleanup : List String
  optimizes : List String
deriving DecidableEq

/-- The `for i, oldIndex := range oldIndexes` loop of `Roll`, walking the old
partitions oldest-first with the running counter `searchIndexes`.  The Go
check `i == len(oldIndexes)-1` (last element of the original list) becomes
`rest.isEmpty` on the remaining list. -/
def rollLoop (config : IndexConfig) (searchSuffix : String) :
    List Index → Int → Plan
  | [], _ => { actions := [], cleanup := [], optimizes := [] }
  | oldIndex :: rest, searchIndexes =>
      let removeMain : AliasAction :=
        { action := "remove", index := oldIndex.Name, aliasName := config.TargetIndex }
      if searchIndexes - 1 ≥ config.IndexesToAliasForSearch then
        let sub := rollLoop config searchSuffix rest (searchIndexes - 1)
        { actions := removeMain ::
            { action := "remove", index := oldIndex.Name,
              aliasName := config.TargetIndex ++ searchSuffix } :: sub.actions,
          cleanup := cleanupEntry config oldIndex ++ sub.cleanup,
          optimizes := sub.optimizes }
      else
        let sub := rollLoop config searchSuffix rest searchIndexes
        { actions := removeMain :: sub.actions,
          cleanup := sub.cleanup,
          optimizes :=
            (if (config.OptimizeOnRoll || config.SettingsOnRoll.isSome) && rest.isEmpty
             then [oldIndex.Name] else []) ++ sub.optimizes }

/-- The full alias plan of one roll: both handles added to the new partition,
then the loop over the old partitions with `searchIndexes = 1 + #old`. -/
def IndexConfig.rollPlan (config : IndexConfig) (nextIndex : String)
    (oldIndexes : List Index) : Plan :=
  let searchSuffix := "_" ++ config.SearchSuffix
  let loop := rollLoop config searchSuffix oldIndexes (1 + (oldIndexes.length : Int))
  { actions :=
      { action := "add", index := nextIndex, aliasName := config.TargetIndex } ::
      { action := "add", index := nextIndex,
        aliasName := config.TargetIndex ++ searchSuffix } :: loop.actions,
    cleanup := loop.cleanup,
    optimizes := loop.optimizes }

/-- The sequence of store operations a (gate-passing) roll issues, in Go's
call order: create, one alias batch, cleanup (delete, or flush then close),
then demotion settings and optimize. -/
def IndexConfig.rollOps (config : IndexConfig) (t : Time) (s : Store) : List Op :=
  let nextIndex := config.NextIndex t
  let settings := config.Settings.getD []
  let oldIndexes := config.OldIndexNames s
  let plan := config.rollPlan nextIndex oldIndexes
  [Op.createIndex nextIndex settings, Op.updateAliases plan.actions] ++
  (if plan.cleanup.length > 0 then
     if config.DeleteOldIndexes then [Op.deleteIndex plan.cleanup]
     else if config.CloseOldIndexes then [Op.flush plan.cleanup, Op.closeIndex plan.cleanup]
     else []
   else []) ++
  (if plan.optimizes.length > 0 then
     (match config.SettingsOnRoll with
      | some st => [Op.putSettings plan.optimizes st]
      | none => []) ++
     (if config.OptimizeOnRoll then
        [Op.optimizeIndices
          (if config.OptimizeMaxSegments = 0 then none else some config.OptimizeMaxSegments)
          plan.optimizes]
      else [])
   else [])

/-- Outcome of a roll: the final store, the operations issued (a failed
operation is issued but has no effect), and Go's returned error. -/
structure RollOutcome where
  store : Store
  issued : List Op
  error : Option String
deriving DecidableEq

/-- Issue a sequence of operations, aborting at the first failure. -/
def runOps (fail : Op → Bool) : List Op → Store → RollOutcome
  | [], s => { store := s, issued := [], error := none }
  | op :: rest, s =>
      if fail op then { store := s, issued := [op], error := some "operation failed" }
      else
        let out := runOps fail rest (s.apply op)
        { store := out.store, issued := op :: out.issued, error := out.error }

/-- `IndexConfig.Roll`: the gate (size room check or next-name existence)
followed by the operation sequence. -/
def IndexConfig.Roll (config : IndexConfig) (pb : String → Except String Nat)
    (fail : Op → Bool) (t : Time) (s : Store) : RollOutcome :=
  let nextIndex := config.NextIndex t
  if config.RollsOnSize then
    match config.HasRoom pb s with
    | (_, some e) => { store := s, issued := [], error := some e }
    | (room, none) =>
        if room then { store := s, issued := [], error := none }
        else runOps fail (config.rollOps t s) s
  else if s.existsIndex nextIndex then { store := s, issued := [], error := none }
  else runOps fail (config.rollOps t s) s

/-- The load-failure branch of `main` (lines 389–401): in one-shot mode a
load error exits with code 1; in daemon mode it only logs.  `none` means the
process does not exit at this point. -/
def mainLoadExit (daemon : Bool) (res : Except String (List IndexConfig)) : Option Nat :=
  match res with
  | Except.error _ => if daemon then none else some 1
  | Except.ok _ => none

/-- The exit code of a one-shot run: 1 from the load-failure branch,
otherwise 0 when `main` returns after its single pass of rolls (per-policy
roll errors are only printed). -/
def oneShotExitCode (res : Except String (List IndexConfig)) : Nat :=
  (mainLoadExit false res).getD 0

/-! Spec-side abbreviations used in the claim statements. -/

/-- The search alias name, grouped as the code builds it
(`config.TargetIndex ++ searchSuffix` with `searchSuffix = "_" ++ config.SearchSuffix`). -/
def searchAliasName (config : IndexConfig) : String :=
  config.TargetIndex ++ ("_" ++ config.SearchSuffix)

/-- How many of the old partitions (oldest-first) a roll retires, for a
family of `n` old partitions: the running counter starts at `n + 1` and each
partition is retired while `counter - 1 ≥ searchFanout` still holds. -/
def retireCount (config : IndexConfig) (n : Nat) : Nat :=
  n + 1 - config.IndexesToAliasForSearch.toNat

/-- The operations of demotion processing (settings update and optimize). -/
def isDemotionOp : Op → Bool
  | Op.putSettings _ _ => true
  | Op.optimizeIndices _ _ => true
  | _ => false

/-! ## Claim C2: the time-based trigger laws -/

/-- Claim C2: for every instant and every policy, with `rollUnit = minutes`
and `rollIncrement = k > 0`, `ShouldRoll` holds iff `second = 0` and
`minute mod k = 0`; analogously for hours (`second = minute = 0`,
`hour mod k = 0`), days (`second = minute = hour = 0`, `dayOfYear mod k = 0`),
months (`month mod k = 0`) and years (`year mod k = 0`); and with
`rollUnit = bytes`, `ShouldRoll` is false for every instant. -/
theorem claim_C2 (config : IndexConfig) (t : Time) (k : Int) :
    (config.RollUnit = "minutes" → config.RollIncrement = k → 0 < k →
      (config.ShouldRoll t = true ↔ t.second = 0 ∧ t.minute % k.toNat = 0)) ∧
    (config.RollUnit = "hours" → config.RollIncrement = k → 0 < k →
      (config.ShouldRoll t = true ↔ t.second = 0 ∧ t.minute = 0 ∧ t.hour % k.toNat = 0)) ∧
    (config.RollUnit = "days" → config.RollIncrement = k → 0 < k →
      (config.ShouldRoll t = true ↔
        t.second = 0 ∧ t.minute = 0 ∧ t.hour = 0 ∧ t.yearDay % k.toNat = 0)) ∧
    (config.RollUnit = "months" → config.RollIncrement = k → 0 < k →
      (config.ShouldRoll t = true ↔
        t.second = 0 ∧ t.minute = 0 ∧ t.hour = 0 ∧ t.month % k.toNat = 0)) ∧
    (config.RollUnit = "years" → config.RollIncrement = k → 0 < k →
      (config.ShouldRoll t = true ↔
        t.second = 0 ∧ t.minute = 0 ∧ t.hour = 0 ∧ t.year % k.toNat = 0)) ∧
    (config.RollUnit = "bytes" → config.ShouldRoll t = false) := by
  have habs : ∀ h : 0 < k, k.natAbs = k.toNat := fun _ => by omega
  refine ⟨?_, ?_, ?_, ?_, ?_, ?_⟩
  all_goals intro hu
  case _ =>
    intro hk hpos
    subst hk
    have hnz : config.RollIncrement ≠ 0 := by omega
    simp [IndexConfig.ShouldRoll, IndexConfig.RollsOnSize, hu, hnz, goMod,
      habs hpos, and_assoc]
  case _ =>
    intro hk hpos
    subst hk
    have hnz : config.RollIncrement ≠ 0 := by omega
    simp [IndexConfig.ShouldRoll, IndexConfig.RollsOnSize, hu, hnz, goMod,
      habs hpos, and_assoc]
  case _ =>
    intro hk hpos
    subst hk
    have hnz : config.RollIncrement ≠ 0 := by omega
    simp [IndexConfig.ShouldRoll, IndexConfig.RollsOnSize, hu, hnz, goMod,
      habs hpos, and_assoc]
  case _ =>
    intro hk hpos
    subst hk
    have hnz : config.RollIncrement ≠ 0 := by omega
    simp [IndexConfig.ShouldRoll, IndexConfig.RollsOnSize, hu, hnz, goMod,
      habs hpos, and_assoc]
  case _ =>
    intro hk hpos
    subst hk
    have hnz : config.RollIncrement ≠ 0 := by omega
    simp [IndexConfig.ShouldRoll, IndexConfig.RollsOnSize, hu, hnz, goMod,
      habs hpos, and_assoc]
  case _ =>
    simp [IndexConfig.ShouldRoll, IndexConfig.RollsOnSize, hu]

/-- Witness for C2 at concrete inputs: a `minutes` policy with increment 3
at second 0, minute 6 (rolls), and a `bytes` policy at the same instant
(never rolls from the time path). -/
theorem claim_C2_witness :
    (({ Id := "a", RollUnit := "minutes", RollIncrement := 3 } :
        IndexConfig).ShouldRoll
      { second := 0, minute := 6, hour := 5, day := 1, yearDay := 1,
        month := 1, year := 2020 } = true) ∧
    (({ Id := "a", RollUnit := "bytes", RollSize := "1kb" } :
        IndexConfig).ShouldRoll
      { second := 0, minute := 6, hour := 5, day := 1, yearDay := 1,
        month := 1, year := 2020 } = false) := by
  constructor
  · exact ((claim_C2 { Id := "a", RollUnit := "minutes", RollIncrement := 3 }
      { second := 0, minute := 6, hour := 5, day := 1, yearDay := 1,
        month := 1, year := 2020 } 3).1 rfl rfl (by decide)).2 (by decide)
  · exact (claim_C2 { Id := "a", RollUnit := "bytes", RollSize := "1kb" }
      { second := 0, minute := 6, hour := 5, day := 1, yearDay := 1,
        month := 1, year := 2020 } 3).2.2.2.2.2 rfl

/-! ## Claim C4: the size-based room check -/

/-- If the cat query returns any index, the existence check succeeds. -/
theorem existsIndex_of_catIndexInfo_ne_nil {s : Store} {pattern : String}
    (h : s.catIndexInfo pattern ≠ []) : s.existsIndex pattern = true := by
  rw [Store.catIndexInfo] at h
  rcases List.exists_mem_of_ne_nil _ h with ⟨i, hi⟩
  rw [List.mem_filter] at hi
  rw [Store.existsIndex, Bool.or_eq_true, List.any_eq_true, List.any_eq_true]
  rcases Bool.or_eq_true _ _ |>.mp hi.2 with hm | hal
  · exact Or.inl ⟨i, hi.1, hm⟩
  · rw [List.any_eq_true] at hal
    rcases hal with ⟨p, hp, hpm⟩
    rw [Bool.and_eq_true] at hpm
    exact Or.inr ⟨p, hp, hpm.2⟩

/-- A parsed size below `2^63` survives Go's `uint64 → int64` conversion. -/
theorem toInt64_of_lt {m : Nat} (h : m < 2 ^ 63) : toInt64 m = (m : Int) := by
  have h64 : m < 2 ^ 64 := lt_of_lt_of_le h (by norm_num)
  rw [toInt64, Nat.mod_eq_of_lt h64, if_pos h]

/-- Claim C4 (amended): for a size-based policy, `HasRoom` returns `false`
with no error when the target does not exist; when the size query resolves
to exactly one partition and the threshold parses, it returns
`measured primary size < int64(parsed threshold)` with no error, where
`int64(·)` is Go's wrapping `uint64 → int64` conversion — equal to the
parsed threshold whenever that is below `2^63`, but negative for parseable
thresholds in `[2^63, 2^64)`, where `HasRoom` therefore reports no room
regardless of the measured size (see the counterexample); and when the
query resolves to zero or more than one partitions it reports an error, on
which `Roll` aborts with no operation issued and the store unchanged. -/
theorem claim_C4 (config : IndexConfig) (pb : String → Except String Nat)
    (fail : Op → Bool) (t : Time) (s : Store) :
    (s.existsIndex config.TargetIndex = false →
      config.HasRoom pb s = (false, none)) ∧
    (∀ idx m, s.catIndexInfo config.TargetIndex = [idx] →
      pb config.RollSize = Except.ok m →
      config.HasRoom pb s = (decide (idx.PriSize < toInt64 m), none)) ∧
    ((s.catIndexInfo config.TargetIndex).length ≠ 1 →
      s.existsIndex config.TargetIndex = true →
      ∃ e, config.HasRoom pb s = (true, some e) ∧
        (config.RollsOnSize = true →
          config.Roll pb fail t s = { store := s, issued := [], error := some e })) := by
  refine ⟨?_, ?_, ?_⟩
  · intro hne
    rw [IndexConfig.HasRoom, if_pos hne]
  · intro idx m hcat hpb
    have hex : s.existsIndex config.TargetIndex = true :=
      existsIndex_of_catIndexInfo_ne_nil (by rw [hcat]; simp)
    have hsz : config.IndexSize s = Except.ok idx.PriSize := by
      rw [IndexConfig.IndexSize, hcat]; simp
    rw [IndexConfig.HasRoom, if_neg (by rw [hex]; simp), hsz, hpb]
  · intro hlen hex
    have herr : ∃ e, config.IndexSize s = Except.error e := by
      rw [IndexConfig.IndexSize]
      rcases Nat.lt_or_ge (s.catIndexInfo config.TargetIndex).length 1 with h1 | h1
      · exact ⟨_, by rw [if_pos (by omega)]⟩
      · exact ⟨_, by rw [if_neg (by omega), if_pos (by omega)]⟩
    rcases herr with ⟨e, he⟩
    refine ⟨e, ?_, ?_⟩
    · rw [IndexConfig.HasRoom, if_neg (by rw [hex]; simp), he]
    · intro hsize
      rw [IndexConfig.Roll, if_pos hsize, IndexConfig.HasRoom, if_neg (by rw [hex]; simp), he]

/-- A concrete size-based policy used by witnesses. -/
def cfgBytes : IndexConfig :=
  { Id := "a", TargetIndex := "t", RollUnit := "bytes", RollSize := "20kb" }

/-- A concrete store where the write alias resolves to one partition. -/
def storeOne : Store :=
  { indices := [{ Name := "t_2020", Status := "open", PriSize := 7 }],
    aliases := [("t_2020", "t")] }

/-- A concrete instant used by witnesses. -/
def t0 : Time :=
  { second := 0, minute := 0, hour := 0, day := 1, yearDay := 1, month := 1,
    year := 2020 }

/-- Counterexample for C4 as stated: the threshold `2^63` is parseable
(such values, e.g. "10EiB", pass `Validate`, which only rejects a parse
failure or zero), the size query resolves to exactly one partition of
measured size 7, and 7 is below the threshold — yet `HasRoom` returns
`(false, none)`, i.e. "no room", not `size < threshold`: Go's
`int64(maxBytes)` conversion wraps `2^63` to a negative value. -/
theorem claim_C4_counterexample :
    cfgBytes.Validate (fun _ => Except.ok (2 ^ 63)) = none ∧
    storeOne.catIndexInfo cfgBytes.TargetIndex =
      [{ Name := "t_2020", Status := "open", PriSize := 7 }] ∧
    ((7 : Int) < 2 ^ 63) ∧
    cfgBytes.HasRoom (fun _ => Except.ok (2 ^ 63)) storeOne = (false, none) := by
  refine ⟨by decide, by decide, by decide, by decide⟩

/-- Witness for C4: a store whose write alias resolves to exactly one
partition of size 7 against a threshold of 20000 (room remains), and an
empty store for the not-yet-existing case. -/
theorem claim_C4_witness :
    (cfgBytes.HasRoom (fun _ => Except.ok 20000)
      { indices := [], aliases := [] } = (false, none)) ∧
    (cfgBytes.HasRoom (fun _ => Except.ok 20000) storeOne = (true, none)) := by
  constructor
  · exact (claim_C4 cfgBytes (fun _ => Except.ok 20000) (fun _ => false) t0
      { indices := [], aliases := [] }).1 (by decide)
  · have h := (claim_C4 cfgBytes (fun _ => Except.ok 20000) (fun _ => false)
      t0 storeOne).2.1 { Name := "t_2020", Status := "open", PriSize := 7 }
      20000 (by decide) rfl
    simpa using h

/-! ## Claim C6: creation failure aborts the roll cleanly -/

/-- Claim C6: when the roll's gate passes (time-based: the next partition
does not exist; size-based: no room and no error) but creating the new
partition fails, `Roll` returns the error having issued only that creation
request — the store (and so the alias topology) is unchanged, and no alias
update, cleanup, settings update or optimize was issued.  The creation
request carries `creationSettings` verbatim (`Settings.getD []` is the
empty settings document when unset). -/
theorem claim_C6 (config : IndexConfig) (pb : String → Except String Nat)
    (fail : Op → Bool) (t : Time) (s : Store) :
    (config.RollsOnSize = false →
      s.existsIndex (config.NextIndex t) = false →
      fail (Op.createIndex (config.NextIndex t) (config.Settings.getD [])) = true →
      config.Roll pb fail t s =
        { store := s,
          issued := [Op.createIndex (config.NextIndex t) (config.Settings.getD [])],
          error := some "operation failed" }) ∧
    (config.RollsOnSize = true →
      config.HasRoom pb s = (false, none) →
      fail (Op.createIndex (config.NextIndex t) (config.Settings.getD [])) = true →
      config.Roll pb fail t s =
        { store := s,
          issued := [Op.createIndex (config.NextIndex t) (config.Settings.getD [])],
          error := some "operation failed" }) := by
  constructor
  · intro hsize hnew hfail
    rw [IndexConfig.Roll, if_neg (by rw [hsize]; simp), if_neg (by rw [hnew]; simp),
      IndexConfig.rollOps]
    simp only [List.cons_append, runOps, hfail, if_pos]
  · intro hsize hroom hfail
    rw [IndexConfig.Roll, if_pos hsize, hroom]
    simp only [if_neg Bool.false_ne_true, IndexConfig.rollOps, List.cons_append,
      runOps, hfail, if_pos]

/-- A concrete time-based policy used by witnesses. -/
def cfgDays : IndexConfig :=
  { Id := "snow", TargetIndex := "t", RollUnit := "days", RollIncrement := 1,
    IndexesToAliasForSearch := 2, SearchSuffix := "search" }

/-- Witness for C6: on an empty store, a failing creation of `t_2020-01-01`
leaves the store untouched with only the creation issued. -/
theorem claim_C6_witness :
    cfgDays.Roll (fun _ => Except.ok 1) (fun _ => true) t0
      { indices := [], aliases := [] } =
      { store := { indices := [], aliases := [] },
        issued := [Op.createIndex "t_2020-01-01" []],
        error := some "operation failed" } := by
  have h := (claim_C6 cfgDays (fun _ => Except.ok 1) (fun _ => true) t0
    { indices := [], aliases := [] }).1 rfl (by decide) rfl
  simpa using h

/-! ## Claim C3: idempotence per target partition name -/

/-- A pattern always matches itself (exactly, or as a prefix when it ends in
a star). -/
theorem patMatch_refl (a : String) : patMatch a a = true := by
  rw [patMatch]; split
  · exact List.isPrefixOf_iff_prefix.mpr (List.dropLast_prefix _)
  · simp

/-- The store contains an index literally named `nm`. -/
def hasIndexNamed (s : Store) (nm : String) : Bool :=
  s.indices.any (fun i => decide (i.Name = nm))

theorem existsIndex_of_hasIndexNamed {s : Store} {nm : String}
    (h : hasIndexNamed s nm = true) : s.existsIndex nm = true := by
  rw [hasIndexNamed, List.any_eq_true] at h
  rcases h with ⟨i, hi, hname⟩
  rw [Store.existsIndex, Bool.or_eq_true, List.any_eq_true]
  exact Or.inl ⟨i, hi, by rw [of_decide_eq_true hname]; exact patMatch_refl _⟩

theorem applyAliasAction_indices (s : Store) (a : AliasAction) :
    (s.applyAliasAction a).indices = s.indices := by
  rw [Store.applyAliasAction]; split_ifs <;> rfl

theorem foldl_applyAliasAction_indices (acts : List AliasAction) (s : Store) :
    (acts.foldl Store.applyAliasAction s).indices = s.indices := by
  induction acts generalizing s with
  | nil => rfl
  | cons a rest ih => rw [List.foldl_cons, ih, applyAliasAction_indices]

theorem apply_create_hasIndexNamed (s : Store) (nm : String) (st : SettingsDoc) :
    hasIndexNamed (s.apply (Op.createIndex nm st)) nm = true := by
  rw [Store.apply]; split
  · assumption
  · simp [hasIndexNamed]

/-- Every operation other than a deletion touching `nm` preserves the
presence of an index named `nm`. -/
theorem apply_hasIndexNamed {s : Store} {nm : String} (op : Op)
    (h : hasIndexNamed s nm = true)
    (hdel : ∀ names, op = Op.deleteIndex names → nm ∉ names) :
    hasIndexNamed (s.apply op) nm = true := by
  rw [hasIndexNamed, List.any_eq_true] at h
  rcases h with ⟨i, hi, hname⟩
  have hname' : i.Name = nm := of_decide_eq_true hname
  cases op with
  | createIndex name settings =>
      rw [Store.apply]; split
      · exact List.any_eq_true.mpr ⟨i, hi, hname⟩
      · exact List.any_eq_true.mpr ⟨i, List.mem_append_left _ hi, hname⟩
  | updateAliases actions =>
      rw [hasIndexNamed, Store.apply, foldl_applyAliasAction_indices]
      exact List.any_eq_true.mpr ⟨i, hi, hname⟩
  | deleteIndex names =>
      refine List.any_eq_true.mpr ⟨i, ?_, hname⟩
      rw [Store.apply]
      refine List.mem_filter.mpr ⟨hi, ?_⟩
      rw [decide_eq_true_eq, hname']
      exact hdel names rfl
  | flush names => exact List.any_eq_true.mpr ⟨i, hi, hname⟩
  | closeIndex names =>
      rw [hasIndexNamed, Store.apply, List.any_map]
      refine List.any_eq_true.mpr ⟨i, hi, ?_⟩
      simp only [Function.comp_apply]
      split <;> simpa using hname'
  | putSettings names settings => exact List.any_eq_true.mpr ⟨i, hi, hname⟩
  | optimizeIndices maxSegments names => exact List.any_eq_true.mpr ⟨i, hi, hname⟩

theorem runOps_hasIndexNamed (fail : Op → Bool) (ops : List Op) (s : Store)
    (nm : String) (h : hasIndexNamed s nm = true)
    (hdel : ∀ names, Op.deleteIndex names ∈ ops → nm ∉ names) :
    hasIndexNamed (runOps fail ops s).store nm = true := by
  induction ops generalizing s with
  | nil => exact h
  | cons op rest ih =>
      rw [runOps]; split
      · exact h
      · exact ih (s.apply op)
          (apply_hasIndexNamed op h (fun names hop => hdel names (by rw [hop]; simp)))
          (fun names hmem => hdel names (List.mem_cons_of_mem _ hmem))

/-- A successful run of a sequence headed by a creation leaves the created
index in the store, provided no later deletion names it. -/
theorem runOps_create_hasIndexNamed (fail : Op → Bool) (nm : String)
    (st : SettingsDoc) (rest : List Op) (s : Store)
    (herr : (runOps fail (Op.createIndex nm st :: rest) s).error = none)
    (hdel : ∀ names, Op.deleteIndex names ∈ rest → nm ∉ names) :
    hasIndexNamed (runOps fail (Op.createIndex nm st :: rest) s).store nm = true := by
  rw [runOps] at herr ⊢
  split at herr
  · simp at herr
  · next hfail =>
      rw [if_neg hfail]
      exact runOps_hasIndexNamed _ _ _ _ (apply_create_hasIndexNamed _ _ _) hdel

theorem mem_insertByName {i x : Index} : ∀ {l : List Index},
    x ∈ insertByName i l ↔ x = i ∨ x ∈ l := by
  intro l
  induction l with
  | nil => simp [insertByName]
  | cons j rest ih =>
      rw [insertByName]; split
      · simp
      · simp only [List.mem_cons, ih]
        tauto

theorem mem_sortByName {x : Index} : ∀ {l : List Index},
    x ∈ sortByName l ↔ x ∈ l := by
  intro l
  induction l with
  | nil => simp [sortByName]
  | cons i rest ih =>
      rw [sortByName, mem_insertByName, ih]
      simp

/-- Every name enumerated by `OldIndexNames` is the name of a stored index. -/
theorem oldIndexNames_name_mem {config : IndexConfig} {s : Store} {x : String}
    (h : x ∈ (config.OldIndexNames s).map (·.Name)) :
    ∃ i ∈ s.indices, i.Name = x := by
  rw [List.mem_map] at h
  rcases h with ⟨y, hy, hname⟩
  rw [IndexConfig.OldIndexNames, mem_sortByName, List.mem_map] at hy
  rcases hy with ⟨info, hinfo, hyeq⟩
  rw [Store.catIndexInfo, List.mem_filter] at hinfo
  exact ⟨info, hinfo.1, by rw [← hname, ← hyeq]⟩

theorem rollLoop_cleanup_subset (config : IndexConfig) (sfx : String) :
    ∀ (old : List Index) (c : Int),
      ∀ x ∈ (rollLoop config sfx old c).cleanup, x ∈ old.map (·.Name) := by
  intro old
  induction old with
  | nil => intro c x hx; simp [rollLoop] at hx
  | cons oldIndex rest ih =>
      intro c x hx
      rw [rollLoop] at hx
      split at hx
      · simp only [List.mem_append] at hx
        rcases hx with hx | hx
        · rw [cleanupEntry] at hx
          split_ifs at hx <;> simp_all
        · exact List.mem_cons_of_mem _ (ih _ x hx)
      · exact List.mem_cons_of_mem _ (ih _ x hx)

/-- A deletion issued by a roll only names old (pre-existing family)
partitions. -/
theorem rollOps_deleteIndex_subset {config : IndexConfig} {t : Time} {s : Store}
    {names : List String} (h : Op.deleteIndex names ∈ config.rollOps t s) :
    ∀ x ∈ names, x ∈ (config.OldIndexNames s).map (·.Name) := by
  rw [IndexConfig.rollOps] at h
  simp only [List.cons_append, List.nil_append, List.mem_cons, List.mem_append] at h
  rcases h with h | h | h
  · exact absurd h (by simp)
  · exact absurd h (by simp)
  · rcases h with h | h
    · split at h
      · split at h
        · rw [List.mem_singleton] at h
          cases h
          exact rollLoop_cleanup_subset config _ _ _
        · split at h
          · simp at h
          · simp at h
      · simp at h
    · split at h
      · simp only [List.mem_append] at h
        rcases h with h | h
        · split at h <;> simp at h
        · split at h <;> simp at h
      · simp at h

/-- Claim C3: for a time-based policy, if the computed next partition name
already exists, `Roll` succeeds with no operation issued and the store
unchanged; consequently a second `Roll` whose instant maps to the same
partition name as a first successful `Roll` is observably a no-op. -/
theorem claim_C3 (config : IndexConfig)
    (pb pb2 : String → Except String Nat) (fail fail2 : Op → Bool)
    (t t2 : Time) (s : Store) :
    (config.RollsOnSize = false →
      s.existsIndex (config.NextIndex t) = true →
      config.Roll pb fail t s = { store := s, issued := [], error := none }) ∧
    (config.RollsOnSize = false →
      (config.Roll pb fail t s).error = none →
      config.NextIndex t2 = config.NextIndex t →
      config.Roll pb2 fail2 t2 (config.Roll pb fail t s).store =
        { store := (config.Roll pb fail t s).store, issued := [], error := none }) := by
  have hnoop : config.RollsOnSize = false →
      ∀ s', s'.existsIndex (config.NextIndex t2) = true →
      config.Roll pb2 fail2 t2 s' = { store := s', issued := [], error := none } := by
    intro hsize s' hex
    rw [IndexConfig.Roll, if_neg (by rw [hsize]; simp), if_pos hex]
  constructor
  · intro hsize hex
    rw [IndexConfig.Roll, if_neg (by rw [hsize]; simp), if_pos hex]
  · intro hsize herr heq
    refine hnoop hsize _ ?_
    rw [heq]
    rw [IndexConfig.Roll, if_neg (by rw [hsize]; simp)] at herr ⊢
    by_cases hex : s.existsIndex (config.NextIndex t) = true
    · rw [if_pos hex]
      exact hex
    · rw [if_neg hex] at herr ⊢
      have hnotold : config.NextIndex t ∉ (config.OldIndexNames s).map (·.Name) := by
        intro hmem
        rcases oldIndexNames_name_mem hmem with ⟨i, hi, hname⟩
        refine hex (existsIndex_of_hasIndexNamed ?_)
        exact List.any_eq_true.mpr ⟨i, hi, decide_eq_true hname⟩
      rw [IndexConfig.rollOps, List.cons_append] at herr ⊢
      refine existsIndex_of_hasIndexNamed
        (runOps_create_hasIndexNamed _ _ _ _ _ herr ?_)
      intro names hmemdel hxname
      refine hnotold ?_
      have hdel2 : Op.deleteIndex names ∈ config.rollOps t s := by
        rw [IndexConfig.rollOps, List.cons_append]
        exact List.mem_cons_of_mem _ hmemdel
      exact rollOps_deleteIndex_subset hdel2 _ hxname

/-- Witness for C3: rolling `cfgDays` twice at the same day on an initially
empty store — the second call is a no-op. -/
theorem claim_C3_witness :
    cfgDays.Roll (fun _ => Except.ok 1) (fun _ => false) t0
      (cfgDays.Roll (fun _ => Except.ok 1) (fun _ => false) t0
        { indices := [], aliases := [] }).store =
    { store := (cfgDays.Roll (fun _ => Except.ok 1) (fun _ => false) t0
        { indices := [], aliases := [] }).store,
      issued := [], error := none } := by
  exact (claim_C3 cfgDays (fun _ => Except.ok 1) (fun _ => Except.ok 1)
    (fun _ => false) (fun _ => false) t0 t0 { indices := [], aliases := [] }).2
    rfl (by decide) rfl

/-! ## Claims C10, C7, C8: policy loading -/

/-- `SetDefaults` only replaces a zero search fanout (by 2). -/
theorem SetDefaults_IndexesToAliasForSearch (config : IndexConfig) :
    (config.SetDefaults).IndexesToAliasForSearch =
      if config.IndexesToAliasForSearch = 0 then 2
      else config.IndexesToAliasForSearch := by
  rw [IndexConfig.SetDefaults]
  split_ifs <;> simp_all

/-- A policy that passes validation has a non-negative search fanout. -/
theorem Validate_none_fanout_nonneg {config : IndexConfig}
    {pb : String → Except String Nat} (h : config.Validate pb = none) :
    0 ≤ config.IndexesToAliasForSearch := by
  by_contra hneg
  push_neg at hneg
  rw [IndexConfig.Validate] at h
  split_ifs at h <;> first | omega | simp at h

/-- Every policy produced by the load loop has search fanout at least 1. -/
theorem processHits_fanout {pb : String → Except String Nat} :
    ∀ {hits : List Hit} {cfgs : List IndexConfig} {c : IndexConfig},
      processHits pb hits = Except.ok cfgs → c ∈ cfgs →
      1 ≤ c.IndexesToAliasForSearch := by
  intro hits
  induction hits with
  | nil =>
      intro cfgs c h hc
      rw [processHits] at h
      cases h
      simp at hc
  | cons hit rest ih =>
      intro cfgs c h hc
      rw [processHits] at h
      split at h
      · exact absurd h (by simp)
      · rename_i configData hsrc
        split at h
        · exact ih h hc
        · rename_i hv
          split at h
          · exact absurd h (by simp)
          · rename_i cs hrest
            cases h
            rcases List.mem_cons.mp hc with hceq | hcs
            · subst hceq
              have h0 : 0 ≤ (({ configData with
                  Id := hit.Id }).SetDefaults).IndexesToAliasForSearch :=
                Validate_none_fanout_nonneg hv
              have hne : (({ configData with
                  Id := hit.Id }).SetDefaults).IndexesToAliasForSearch ≠ 0 := by
                rw [SetDefaults_IndexesToAliasForSearch]
                split_ifs <;> omega
              omega
            · exact ih hrest hcs

/-- Claim C10: every policy accepted into the working set has
`searchFanout ≥ 1`; the defaulting step (run before validation) replaces a
zero `searchAliases` value by 2, and validation rejects negative values, so
a loaded policy with fanout 0 is unrepresentable. -/
theorem claim_C10 (pb : String → Except String Nat)
    (res : Except String SearchRes) (cfgs : List IndexConfig)
    (c config : IndexConfig) :
    (GetConfigs pb res = Except.ok cfgs → c ∈ cfgs →
      1 ≤ c.IndexesToAliasForSearch) ∧
    ((config.SetDefaults).IndexesToAliasForSearch =
      if config.IndexesToAliasForSearch = 0 then 2
      else config.IndexesToAliasForSearch) := by
  refine ⟨?_, SetDefaults_IndexesToAliasForSearch config⟩
  intro h hc
  match res with
  | Except.error e => exact absurd h (by simp [GetConfigs])
  | Except.ok r =>
      simp only [GetConfigs] at h
      split at h
      · exact absurd h (by simp)
      · exact processHits_fanout h hc

/-- The parser stub used by load witnesses (the parsed threshold is
irrelevant to non-bytes policies). -/
def pbOk : String → Except String Nat := fun _ => Except.ok 1

/-- A hit whose document deserializes and validates. -/
def hitGood : Hit := { Id := "good", Source := some { RollUnit := "days" } }

/-- A hit whose document does not deserialize. -/
def hitBad : Hit := { Id := "bad", Source := none }

/-- A hit whose document deserializes but fails validation (bad roll unit). -/
def hitInvalid : Hit := { Id := "inv", Source := some { RollUnit := "weeks" } }

/-- Witness for C10 at a concrete load of one valid document. -/
theorem claim_C10_witness :
    1 ≤ (({ RollUnit := "days", Id := "good" } :
      IndexConfig).SetDefaults).IndexesToAliasForSearch ∧
    (({ RollUnit := "days", Id := "good" } :
      IndexConfig).SetDefaults).IndexesToAliasForSearch = 2 := by
  constructor
  · exact (claim_C10 pbOk (Except.ok { Total := 1, Hits := [hitGood] })
      [({ RollUnit := "days", Id := "good" } : IndexConfig).SetDefaults]
      (({ RollUnit := "days", Id := "good" } : IndexConfig).SetDefaults)
      { RollUnit := "days", Id := "good" }).1 (by decide) (by simp)
  · decide

/-- The load loop keeps exactly the validating documents when every
document deserializes. -/
theorem processHits_all_some {pb : String → Except String Nat} :
    ∀ (hits : List Hit), (∀ hit ∈ hits, hit.Source.isSome = true) →
      processHits pb hits = Except.ok (hits.filterMap (fun hit =>
        match hit.Source with
        | none => none
        | some configData =>
            let c := ({ configData with Id := hit.Id }).SetDefaults
            match c.Validate pb with
            | some _ => none
            | none => some c)) := by
  intro hits
  induction hits with
  | nil => intro _; rfl
  | cons hit rest ih =>
      intro h
      have hsome := h hit (List.mem_cons_self _ _)
      have hr := ih (fun x hx => h x (List.mem_cons_of_mem _ hx))
      match hsrc : hit.Source with
      | none => rw [hsrc] at hsome; simp at hsome
      | some configData =>
          rw [processHits, hsrc, List.filterMap_cons, hsrc]
          match hv : (({ configData with Id := hit.Id }).SetDefaults).Validate pb with
          | some e => simp only [hv, hr]
          | none => simp only [hv, hr]

/-- Claim C7 (amended): when every stored document deserializes, a
validation failure in one document only drops that document — the load
succeeds and returns exactly the validating documents, in order.  (The
original claim fails for undeserializable documents, which abort the whole
load: see the counterexample.) -/
theorem claim_C7 (pb : String → Except String Nat) (r : SearchRes)
    (h : ∀ hit ∈ r.Hits, hit.Source.isSome = true) (hT : r.Total ≠ 0) :
    GetConfigs pb (Except.ok r) = Except.ok (r.Hits.filterMap (fun hit =>
      match hit.Source with
      | none => none
      | some configData =>
          let c := ({ configData with Id := hit.Id }).SetDefaults
          match c.Validate pb with
          | some _ => none
          | none => some c)) := by
  simp only [GetConfigs]
  rw [if_neg hT]
  exact processHits_all_some r.Hits h

/-- Counterexample for C7 as stated: an undeserializable first document
makes the whole load fail — the valid second document yields no policy —
even though alone that second document loads fine. -/
theorem claim_C7_counterexample :
    GetConfigs pbOk (Except.ok { Total := 2, Hits := [hitBad, hitGood] }) =
        Except.error "unmarshal error" ∧
    GetConfigs pbOk (Except.ok { Total := 1, Hits := [hitGood] }) =
        Except.ok [({ RollUnit := "days", Id := "good" } :
          IndexConfig).SetDefaults] := by
  constructor <;> decide

/-- Witness for C7: one invalid (validation-failing) and one valid document
in the same load — only the invalid one is dropped. -/
theorem claim_C7_witness :
    GetConfigs pbOk (Except.ok { Total := 2, Hits := [hitInvalid, hitGood] }) =
      Except.ok [({ RollUnit := "days", Id := "good" } :
        IndexConfig).SetDefaults] := by
  have h := claim_C7 pbOk { Total := 2, Hits := [hitInvalid, hitGood] }
    (by decide) (by decide)
  exact h.trans (by decide)

/-- Claim C8 (amended): in one-shot mode the process exits non-zero exactly
when the load itself returns an error (search failure, no documents, or an
undeserializable document); it exits zero whenever the load succeeds — even
when every document failed validation and the working set is empty.  Daemon
mode never exits on a load failure.  (The original claim fails when
documents exist but none validates: see the counterexample.) -/
theorem claim_C8 (e : String) (cfgs : List IndexConfig)
    (res : Except String (List IndexConfig)) :
    oneShotExitCode (Except.error e) = 1 ∧
    oneShotExitCode (Except.ok cfgs) = 0 ∧
    mainLoadExit true res = none := by
  refine ⟨rfl, rfl, ?_⟩
  match res with
  | Except.error e2 => rfl
  | Except.ok cfgs2 => rfl

/-- Counterexample for C8 as stated: a load whose only document fails
validation produces an empty working set with no load error, and the
one-shot run exits 0 — not non-zero — although no valid policy was loaded. -/
theorem claim_C8_counterexample :
    GetConfigs pbOk (Except.ok { Total := 1, Hits := [hitInvalid] }) =
        Except.ok [] ∧
    oneShotExitCode
      (GetConfigs pbOk (Except.ok { Total := 1, Hits := [hitInvalid] })) = 0 := by
  constructor <;> decide

/-! ## The roll loop characterization (for claims C1 and C5) -/

/-- Demotion processing is queued when either `optimizeOnRoll` is set or a
demotion settings document is configured. -/
def demotionFlag (config : IndexConfig) : Bool :=
  config.OptimizeOnRoll || config.SettingsOnRoll.isSome

/-- If the running counter is already below the retirement threshold, the
loop retires nothing: it removes the write handle from every old partition,
queues no cleanup, and queues the last old partition for demotion exactly
when the demotion flag is set. -/
theorem rollLoop_no_retire (config : IndexConfig) (sfx : String) :
    ∀ (old : List Index) (c : Int),
      c - 1 < config.IndexesToAliasForSearch →
      rollLoop config sfx old c =
        { actions := old.map (fun o =>
            { action := "remove", index := o.Name, aliasName := config.TargetIndex }),
          cleanup := [],
          optimizes := if demotionFlag config then
              ((old.getLast?).map (·.Name)).toList else [] } := by
  intro old
  induction old with
  | nil =>
      intro c hc
      simp only [rollLoop]
      cases h : demotionFlag config <;> simp
  | cons oldIndex rest ih =>
      intro c hc
      have hfold : (config.OptimizeOnRoll || config.SettingsOnRoll.isSome) =
          demotionFlag config := rfl
      simp only [rollLoop]
      rw [if_neg (by omega), ih c hc, hfold]
      simp only [Plan.mk.injEq]
      refine ⟨by trivial, by trivial, ?_⟩
      cases rest with
      | nil => cases hflag : demotionFlag config <;> simp [hflag]
      | cons b bs =>
          cases hflag : demotionFlag config <;>
            simp [hflag, List.getLast?_cons_cons]

/-- With the counter seeded at `1 + #old` and fanout ≥ 1, the loop retires
exactly the oldest `retireCount` old partitions (removing write and search
handles from them and queueing their cleanup), removes only the write handle
from the rest, and queues the last old partition for demotion exactly when
it was not retired and the demotion flag is set. -/
theorem rollLoop_spec (config : IndexConfig) (sfx : String)
    (hf : 1 ≤ config.IndexesToAliasForSearch) :
    ∀ (old : List Index),
      rollLoop config sfx old (1 + (old.length : Int)) =
        { actions :=
            ((old.take (retireCount config old.length)).map (fun o =>
              [({ action := "remove", index := o.Name,
                  aliasName := config.TargetIndex } : AliasAction),
               { action := "remove", index := o.Name,
                 aliasName := config.TargetIndex ++ sfx }])).flatten ++
            ((old.drop (retireCount config old.length)).map (fun o =>
              { action := "remove", index := o.Name,
                aliasName := config.TargetIndex })),
          cleanup := ((old.take (retireCount config old.length)).map
            (cleanupEntry config)).flatten,
          optimizes :=
            if demotionFlag config &&
                decide (retireCount config old.length < old.length)
            then ((old.getLast?).map (·.Name)).toList else [] } := by
  intro old
  induction old with
  | nil => simp [rollLoop]
  | cons oldIndex rest ih =>
      by_cases hcase : config.IndexesToAliasForSearch ≤ (rest.length : Int) + 1
      · -- the head is retired
        have hc : (1 : Int) + ((oldIndex :: rest).length : Int) - 1 ≥
            config.IndexesToAliasForSearch := by
          push_cast [List.length_cons]; omega
        have hcnt : (1 : Int) + ((oldIndex :: rest).length : Int) - 1 =
            1 + (rest.length : Int) := by
          push_cast [List.length_cons]; ring
        have hr : retireCount config (oldIndex :: rest).length =
            retireCount config rest.length + 1 := by
          rw [List.length_cons, retireCount, retireCount]; omega
        simp only [rollLoop]
        rw [if_pos hc, hcnt, ih, hr]
        simp only [List.take_succ_cons, List.drop_succ_cons, List.map_cons,
          List.flatten_cons, List.length_cons, Plan.mk.injEq]
        refine ⟨by simp, by trivial, ?_⟩
        simp only [Nat.add_lt_add_iff_right]
        by_cases hrl : retireCount config rest.length < rest.length
        · have hne : rest ≠ [] := by
            intro hnil; rw [hnil] at hrl; simp at hrl
          obtain ⟨b, bs, rfl⟩ := List.exists_cons_of_ne_nil hne
          simp [hrl, List.getLast?_cons_cons]
        · simp [hrl]
      · -- nothing is retired
        have hc : (1 : Int) + ((oldIndex :: rest).length : Int) - 1 <
            config.IndexesToAliasForSearch := by
          push_cast [List.length_cons]; omega
        have hr : retireCount config (oldIndex :: rest).length = 0 := by
          rw [List.length_cons, retireCount]; omega
        rw [rollLoop_no_retire config sfx _ _ hc, hr]
        simp

/-! ## Claim C5: demotion targeting -/

theorem getLast?_drop_of_lt {α : Type _} {l : List α} {r : Nat}
    (h : r < l.length) : (l.drop r).getLast? = l.getLast? := by
  conv_rhs => rw [← List.take_append_drop r l]
  rw [List.getLast?_append_of_ne_nil]
  intro hnil
  have := congrArg List.length hnil
  rw [List.length_drop] at this
  simp at this
  omega

/-- Claim C5: in a roll where at least one old partition is not retired
(`retireCount < #old`) and the demotion flag (optimize-on-roll or demotion
settings) is set, exactly one old partition receives demotion processing —
the single newest among the not-yet-retired old partitions, which is the
newest old partition overall — with the settings update issued first (when
configured) and then the optimize (when configured), carrying
`optimizeMaxSegments` exactly when it is non-zero; no other operation of a
roll is a settings update or optimize, so retired partitions and partitions
already outside the fanout window receive neither. -/
theorem claim_C5 (config : IndexConfig) (t : Time) (s : Store)
    (hfan : 1 ≤ config.IndexesToAliasForSearch)
    (hflag : demotionFlag config = true)
    (hlt : retireCount config (config.OldIndexNames s).length <
      (config.OldIndexNames s).length) :
    ∃ last : Index,
      ((config.OldIndexNames s).drop
        (retireCount config (config.OldIndexNames s).length)).getLast? =
          some last ∧
      (config.OldIndexNames s).getLast? = some last ∧
      (config.rollOps t s).filter isDemotionOp =
        (match config.SettingsOnRoll with
         | some st => [Op.putSettings [last.Name] st]
         | none => []) ++
        (if config.OptimizeOnRoll then
          [Op.optimizeIndices
            (if config.OptimizeMaxSegments = 0 then none
             else some config.OptimizeMaxSegments) [last.Name]]
         else []) := by
  have hne : config.OldIndexNames s ≠ [] := by
    intro h; rw [h] at hlt; simp at hlt
  have hlast : (config.OldIndexNames s).getLast? =
      some ((config.OldIndexNames s).getLast hne) :=
    List.getLast?_eq_getLast_of_ne_nil hne
  refine ⟨(config.OldIndexNames s).getLast hne, ?_, hlast, ?_⟩
  · rw [getLast?_drop_of_lt hlt, hlast]
  · have hplan : (config.rollPlan (config.NextIndex t)
        (config.OldIndexNames s)).optimizes =
        [((config.OldIndexNames s).getLast hne).Name] := by
      simp only [IndexConfig.rollPlan]
      rw [rollLoop_spec config _ hfan]
      simp [hflag, hlt, hlast]
    simp only [IndexConfig.rollOps]
    rw [hplan]
    rcases hS : config.SettingsOnRoll with _ | st <;>
      cases hO : config.OptimizeOnRoll <;>
      simp [hS, hO, isDemotionOp, List.filter_append,
        apply_ite (List.filter isDemotionOp)]

/-- A concrete policy with demotion settings and optimize-on-roll. -/
def cfgDemo : IndexConfig :=
  { Id := "snow", TargetIndex := "t", RollUnit := "days", RollIncrement := 1,
    IndexesToAliasForSearch := 2, SearchSuffix := "search",
    DeleteOldIndexes := true, OptimizeOnRoll := true, OptimizeMaxSegments := 2,
    SettingsOnRoll := some [("k", "v")] }

/-- A concrete store with two old partitions of the `t` family, write alias
on the newest, search alias on both. -/
def storeDemo : Store :=
  { indices := [{ Name := "t_2020", Status := "open", PriSize := 5 },
                { Name := "t_2021", Status := "open", PriSize := 7 }],
    aliases := [("t_2021", "t"), ("t_2020", "t_search"), ("t_2021", "t_search")] }

/-- Witness for C5: with fanout 2 and two old partitions, the newest old
partition `t_2021` (demoted to search-only) receives the settings update
then the optimize with `max_num_segments = 2`. -/
theorem claim_C5_witness :
    ∃ last : Index,
      ((cfgDemo.OldIndexNames storeDemo).drop
        (retireCount cfgDemo (cfgDemo.OldIndexNames storeDemo).length)).getLast? =
          some last ∧
      (cfgDemo.OldIndexNames storeDemo).getLast? = some last ∧
      (cfgDemo.rollOps t0 storeDemo).filter isDemotionOp =
        (match cfgDemo.SettingsOnRoll with
         | some st => [Op.putSettings [last.Name] st]
         | none => []) ++
        (if cfgDemo.OptimizeOnRoll then
          [Op.optimizeIndices
            (if cfgDemo.OptimizeMaxSegments = 0 then none
             else some cfgDemo.OptimizeMaxSegments) [last.Name]]
         else []) :=
  claim_C5 cfgDemo t0 storeDemo (by decide) (by decide) (by decide)

/-! ## Alias-state lemmas (for claim C1) -/

theorem mem_applyAliasAction_add {s : Store} {a : AliasAction}
    {p : String × String} (h : a.action = "add") :
    p ∈ (s.applyAliasAction a).aliases ↔
      p ∈ s.aliases ∨ p = (a.index, a.aliasName) := by
  rw [Store.applyAliasAction, if_pos h]
  split
  · rename_i hmem
    constructor
    · exact Or.inl
    · rintro (hp | rfl)
      · exact hp
      · exact hmem
  · simp

theorem mem_applyAliasAction_remove {s : Store} {a : AliasAction}
    {p : String × String} (h : a.action = "remove") :
    p ∈ (s.applyAliasAction a).aliases ↔
      p ∈ s.aliases ∧ p ≠ (a.index, a.aliasName) := by
  rw [Store.applyAliasAction, if_neg (by rw [h]; decide), if_pos h]
  simp [List.mem_filter]

theorem mem_foldl_removes {p : String × String} :
    ∀ (acts : List AliasAction) (s : Store),
      (∀ a ∈ acts, a.action = "remove") →
      (p ∈ (acts.foldl Store.applyAliasAction s).aliases ↔
        p ∈ s.aliases ∧ ∀ a ∈ acts, p ≠ (a.index, a.aliasName)) := by
  intro acts
  induction acts with
  | nil => intro s h; simp
  | cons a rest ih =>
      intro s h
      rw [List.foldl_cons, ih _ (fun x hx => h x (List.mem_cons_of_mem _ hx)),
        mem_applyAliasAction_remove (h a (List.mem_cons_self _ _))]
      constructor
      · rintro ⟨⟨hp, hne⟩, hrest⟩
        refine ⟨hp, ?_⟩
        intro b hb
        rcases List.mem_cons.mp hb with rfl | hb
        · exact hne
        · exact hrest b hb
      · rintro ⟨hp, hall⟩
        exact ⟨⟨hp, hall a (List.mem_cons_self _ _)⟩,
          fun b hb => hall b (List.mem_cons_of_mem _ hb)⟩

/-- The remove-actions list produced by the loop (spec form). -/
def loopRemoveActions (W SA : String) (old : List Index) (r : Nat) :
    List AliasAction :=
  ((old.take r).map (fun o =>
    [({ action := "remove", index := o.Name, aliasName := W } : AliasAction),
     { action := "remove", index := o.Name, aliasName := SA }])).flatten ++
  ((old.drop r).map (fun o =>
    ({ action := "remove", index := o.Name, aliasName := W } : AliasAction)))

theorem loopRemoveActions_action {W SA : String} {old : List Index} {r : Nat} :
    ∀ a ∈ loopRemoveActions W SA old r, a.action = "remove" := by
  intro a ha
  rw [loopRemoveActions] at ha
  simp only [List.mem_append, List.mem_flatten, List.mem_map] at ha
  rcases ha with ⟨l, ⟨o, ho, rfl⟩, hal⟩ | ⟨o, ho, rfl⟩
  · simp only [List.mem_cons, List.mem_singleton, List.not_mem_nil, or_false] at hal
    rcases hal with rfl | rfl <;> rfl
  · rfl

theorem loopRemoveActions_elim {W SA : String} {old : List Index} {r : Nat}
    {a : AliasAction} (ha : a ∈ loopRemoveActions W SA old r) :
    ∃ o, (o ∈ old ∧
        a = { action := "remove", index := o.Name, aliasName := W }) ∨
      (o ∈ old.take r ∧
        a = { action := "remove", index := o.Name, aliasName := SA }) := by
  rw [loopRemoveActions] at ha
  simp only [List.mem_append, List.mem_flatten, List.mem_map] at ha
  rcases ha with ⟨l, ⟨o, ho, rfl⟩, hal⟩ | ⟨o, ho, rfl⟩
  · simp only [List.mem_cons, List.mem_singleton, List.not_mem_nil, or_false] at hal
    rcases hal with rfl | rfl
    · exact ⟨o, Or.inl ⟨List.take_subset _ _ ho, rfl⟩⟩
    · exact ⟨o, Or.inr ⟨ho, rfl⟩⟩
  · exact ⟨o, Or.inl ⟨List.drop_subset _ _ ho, rfl⟩⟩

theorem loopRemoveActions_intro_w {W SA : String} {old : List Index} {r : Nat}
    {o : Index} (ho : o ∈ old) :
    ({ action := "remove", index := o.Name, aliasName := W } : AliasAction) ∈
      loopRemoveActions W SA old r := by
  rw [loopRemoveActions]
  rw [← List.take_append_drop r old] at ho
  rcases List.mem_append.mp ho with ho | ho
  · exact List.mem_append_left _
      (List.mem_flatten.mpr ⟨_, List.mem_map_of_mem _ ho, by simp⟩)
  · exact List.mem_append_right _ (List.mem_map_of_mem _ ho)

theorem loopRemoveActions_intro_s {W SA : String} {old : List Index} {r : Nat}
    {o : Index} (ho : o ∈ old.take r) :
    ({ action := "remove", index := o.Name, aliasName := SA } : AliasAction) ∈
      loopRemoveActions W SA old r :=
  List.mem_append_left _
    (List.mem_flatten.mpr ⟨_, List.mem_map_of_mem _ ho, by simp⟩)

/-- Membership in the alias state after one full roll batch: the pair
survives (or is the freshly added write/search pair of the new partition)
unless the loop removed it. -/
theorem batch_mem_iff (s1 : Store) (W SA next : String) (old : List Index)
    (r : Nat) (x al : String) :
    ((x, al) ∈ ((({ action := "add", index := next, aliasName := W } :
          AliasAction) ::
        ({ action := "add", index := next, aliasName := SA } : AliasAction) ::
        loopRemoveActions W SA old r).foldl
          Store.applyAliasAction s1).aliases) ↔
      (((x, al) ∈ s1.aliases ∨ (x = next ∧ al = W) ∨ (x = next ∧ al = SA)) ∧
        ¬(al = W ∧ x ∈ old.map (·.Name)) ∧
        ¬(al = SA ∧ x ∈ (old.take r).map (·.Name))) := by
  rw [List.foldl_cons, List.foldl_cons,
    mem_foldl_removes _ _ loopRemoveActions_action,
    mem_applyAliasAction_add rfl, mem_applyAliasAction_add rfl]
  simp only [Prod.mk.injEq, or_assoc]
  constructor
  · rintro ⟨hmem, hno⟩
    refine ⟨hmem, ?_, ?_⟩
    · rintro ⟨rfl, hx⟩
      rcases List.mem_map.mp hx with ⟨o, ho, hname⟩
      exact hno _ (loopRemoveActions_intro_w ho) (by rw [hname])
    · rintro ⟨rfl, hx⟩
      rcases List.mem_map.mp hx with ⟨o, ho, hname⟩
      exact hno _ (loopRemoveActions_intro_s ho) (by rw [hname])
  · rintro ⟨hmem, hW, hS⟩
    refine ⟨hmem, ?_⟩
    intro a ha heq
    rcases loopRemoveActions_elim ha with ⟨o, ⟨ho, rfl⟩ | ⟨ho, rfl⟩⟩
    · have hx : x = o.Name := congrArg Prod.fst heq
      have hal : al = W := congrArg Prod.snd heq
      exact hW ⟨hal, hx ▸ List.mem_map_of_mem _ ho⟩
    · have hx : x = o.Name := congrArg Prod.fst heq
      have hal : al = SA := congrArg Prod.snd heq
      exact hS ⟨hal, hx ▸ List.mem_map_of_mem _ ho⟩

theorem apply_create_aliases (s : Store) (nm : String) (st : SettingsDoc) :
    (s.apply (Op.createIndex nm st)).aliases = s.aliases := by
  rw [Store.apply]; split <;> rfl

theorem apply_updateAliases (s : Store) (acts : List AliasAction) :
    s.apply (Op.updateAliases acts) = acts.foldl Store.applyAliasAction s := rfl

theorem apply_close_aliases (s : Store) (ns : List String) :
    (s.apply (Op.closeIndex ns)).aliases = s.aliases := rfl

theorem apply_flush_eq (s : Store) (ns : List String) :
    s.apply (Op.flush ns) = s := rfl

theorem mem_apply_delete (s : Store) (names : List String)
    (p : String × String) :
    p ∈ (s.apply (Op.deleteIndex names)).aliases ↔
      p ∈ s.aliases ∧ p.1 ∉ names := by
  rw [Store.apply]
  simp [List.mem_filter]

theorem apply_demotion_noop (s : Store) (op : Op)
    (h : isDemotionOp op = true) : s.apply op = s := by
  cases op with
  | putSettings names settings => rfl
  | optimizeIndices maxSegments names => rfl
  | createIndex a b => simp [isDemotionOp] at h
  | updateAliases a => simp [isDemotionOp] at h
  | deleteIndex a => simp [isDemotionOp] at h
  | flush a => simp [isDemotionOp] at h
  | closeIndex a => simp [isDemotionOp] at h

theorem foldl_apply_demotion (ops : List Op) (s : Store)
    (h : ∀ op ∈ ops, isDemotionOp op = true) :
    ops.foldl Store.apply s = s := by
  induction ops generalizing s with
  | nil => rfl
  | cons op rest ih =>
      rw [List.foldl_cons, apply_demotion_noop s op (h op (List.mem_cons_self _ _)),
        ih s (fun x hx => h x (List.mem_cons_of_mem _ hx))]

/-- Every operation of the demotion tail of a roll is a demotion op. -/
theorem rollOps_tail_demotion (config : IndexConfig) (optimizes : List String) :
    ∀ op ∈ (if optimizes.length > 0 then
        (match config.SettingsOnRoll with
         | some st => [Op.putSettings optimizes st]
         | none => []) ++
        (if config.OptimizeOnRoll then
          [Op.optimizeIndices
            (if config.OptimizeMaxSegments = 0 then none
             else some config.OptimizeMaxSegments) optimizes]
         else [])
      else []), isDemotionOp op = true := by
  intro op hop
  split at hop
  · rcases List.mem_append.mp hop with h | h
    · split at h
      · simp only [List.mem_singleton] at h
        subst h; rfl
      · simp at h
    · split at h
      · simp only [List.mem_singleton] at h
        subst h; rfl
      · simp at h
  · simp at hop

/-- The cleanup section of a roll removes from the alias state exactly the
pairs of deleted partitions (deletion configured and name queued); closing
or flushing leaves the alias state unchanged. -/
theorem mid_aliases_iff (config : IndexConfig) (cleanup : List String)
    (s2 : Store) (p : String × String) :
    p ∈ ((if cleanup.length > 0 then
        if config.DeleteOldIndexes then [Op.deleteIndex cleanup]
        else if config.CloseOldIndexes then
          [Op.flush cleanup, Op.closeIndex cleanup]
        else []
      else []).foldl Store.apply s2).aliases ↔
      (p ∈ s2.aliases ∧ ¬(config.DeleteOldIndexes = true ∧ p.1 ∈ cleanup)) := by
  split
  · split_ifs with hdel hclose
    · rw [List.foldl_cons, List.foldl_nil, mem_apply_delete]
      simp [hdel]
    · rw [List.foldl_cons, List.foldl_cons, List.foldl_nil, apply_flush_eq]
      rw [show ((s2.apply (Op.closeIndex cleanup)).aliases = s2.aliases) from
        apply_close_aliases s2 cleanup]
      simp [hdel]
    · simp [hdel]
  · rename_i hlen
    have : cleanup = [] := by
      rcases cleanup with _ | ⟨c, cs⟩
      · rfl
      · exact absurd (by simp) hlen
    subst this
    simp

/-! ## Claim C1: the handle-topology invariant after a roll -/

/-- The search alias is a strict extension of the write alias name, so the
two handles are distinct names. -/
theorem searchAliasName_ne (config : IndexConfig) :
    searchAliasName config ≠ config.TargetIndex := by
  intro h
  have hlen := congrArg String.length h
  rw [searchAliasName, String.length_append, String.length_append] at hlen
  have h1 : ("_" : String).length = 1 := rfl
  rw [h1] at hlen
  omega

theorem runOps_store_eq_foldl (fail : Op → Bool) :
    ∀ (ops : List Op) (s : Store),
      (runOps fail ops s).error = none →
      (runOps fail ops s).store = ops.foldl Store.apply s := by
  intro ops
  induction ops with
  | nil => intro s h; rfl
  | cons op rest ih =>
      intro s h
      rw [runOps] at h ⊢
      split at h
      · simp at h
      · rename_i hfail
        rw [if_neg hfail, List.foldl_cons]
        exact ih _ h

/-- Claim C1: after every successful roll that creates a new partition —
time-based (the next name does not exist yet) or size-based (no room and no
error) — the write handle is held by exactly the new partition; the search
handle is held by exactly the new partition together with the newest
`searchFanout - 1` old partitions (those after the retired oldest-first
prefix of `retireCount` partitions); the number of distinct search-handle
holders is `min searchFanout (familySize)` with `familySize = #old + 1`; and
every partition outside that window holds neither handle.  The hypotheses
are the gate having passed and the pre-roll invariant: fanout ≥ 1
(guaranteed for every loaded policy), family names are distinct, the next
name is fresh, both handles sit only on family members, and the partitions
that will stay in the window already hold the search handle. -/
theorem claim_C1 (config : IndexConfig) (pb : String → Except String Nat)
    (fail : Op → Bool) (t : Time) (s : Store)
    (hGate : (config.RollsOnSize = false ∧
        s.existsIndex (config.NextIndex t) = false) ∨
      (config.RollsOnSize = true ∧ config.HasRoom pb s = (false, none)))
    (hfan : 1 ≤ config.IndexesToAliasForSearch)
    (hOk : (config.Roll pb fail t s).error = none)
    (hNodup : ((config.OldIndexNames s).map (·.Name)).Nodup)
    (hNext : config.NextIndex t ∉ (config.OldIndexNames s).map (·.Name))
    (hClosure : ∀ p ∈ s.aliases,
      (p.2 = config.TargetIndex ∨ p.2 = searchAliasName config) →
      p.1 ∈ (config.OldIndexNames s).map (·.Name))
    (hSearch : ∀ x ∈ ((config.OldIndexNames s).drop
        (retireCount config (config.OldIndexNames s).length)).map (·.Name),
      (x, searchAliasName config) ∈ s.aliases) :
    (∀ x : String, ((x, config.TargetIndex) ∈
        (config.Roll pb fail t s).store.aliases ↔ x = config.NextIndex t)) ∧
    (∀ x : String, ((x, searchAliasName config) ∈
        (config.Roll pb fail t s).store.aliases ↔
      (x = config.NextIndex t ∨
        x ∈ ((config.OldIndexNames s).drop
          (retireCount config (config.OldIndexNames s).length)).map (·.Name)))) ∧
    ((((config.Roll pb fail t s).store.aliases.filter
        (fun p => decide (p.2 = searchAliasName config))).map
          Prod.fst).toFinset.card =
      min config.IndexesToAliasForSearch.toNat
        ((config.OldIndexNames s).length + 1)) ∧
    (∀ x : String, x ≠ config.NextIndex t →
      x ∉ ((config.OldIndexNames s).drop
        (retireCount config (config.OldIndexNames s).length)).map (·.Name) →
      ¬((x, config.TargetIndex) ∈ (config.Roll pb fail t s).store.aliases ∨
        (x, searchAliasName config) ∈
          (config.Roll pb fail t s).store.aliases)) := by
  have hWne : searchAliasName config ≠ config.TargetIndex := searchAliasName_ne config
  have hroll : config.Roll pb fail t s = runOps fail (config.rollOps t s) s := by
    rcases hGate with ⟨hTime, hNew⟩ | ⟨hSize, hRoom⟩
    · rw [IndexConfig.Roll, if_neg (by rw [hTime]; simp),
        if_neg (by rw [hNew]; simp)]
    · rw [IndexConfig.Roll, if_pos hSize, hRoom]
      rfl
  have hOk2 : (runOps fail (config.rollOps t s) s).error = none := by
    rw [← hroll]; exact hOk
  -- the split of the old-family names into the retired prefix and the kept suffix
  have hsplit : (config.OldIndexNames s).map (·.Name) =
      ((config.OldIndexNames s).take
        (retireCount config (config.OldIndexNames s).length)).map (·.Name) ++
      ((config.OldIndexNames s).drop
        (retireCount config (config.OldIndexNames s).length)).map (·.Name) := by
    rw [← List.map_append, List.take_append_drop]
  have hdisj : List.Disjoint
      (((config.OldIndexNames s).take
        (retireCount config (config.OldIndexNames s).length)).map (·.Name))
      (((config.OldIndexNames s).drop
        (retireCount config (config.OldIndexNames s).length)).map (·.Name)) := by
    have hnd := hNodup
    rw [hsplit] at hnd
    exact (List.nodup_append.mp hnd).2.2
  -- the plan in its explicit form
  have hacts : (config.rollPlan (config.NextIndex t)
      (config.OldIndexNames s)).actions =
      ({ action := "add", index := config.NextIndex t,
         aliasName := config.TargetIndex } : AliasAction) ::
      ({ action := "add", index := config.NextIndex t,
         aliasName := searchAliasName config } : AliasAction) ::
      loopRemoveActions config.TargetIndex (searchAliasName config)
        (config.OldIndexNames s)
        (retireCount config (config.OldIndexNames s).length) := by
    simp only [IndexConfig.rollPlan]
    rw [rollLoop_spec config _ hfan]
    rfl
  have hclean : (config.rollPlan (config.NextIndex t)
      (config.OldIndexNames s)).cleanup =
      (((config.OldIndexNames s).take
        (retireCount config (config.OldIndexNames s).length)).map
          (cleanupEntry config)).flatten := by
    simp only [IndexConfig.rollPlan]
    rw [rollLoop_spec config _ hfan]
  have hcleanSub : ∀ y ∈ (config.rollPlan (config.NextIndex t)
      (config.OldIndexNames s)).cleanup,
      y ∈ ((config.OldIndexNames s).take
        (retireCount config (config.OldIndexNames s).length)).map (·.Name) := by
    intro y hy
    rw [hclean] at hy
    simp only [List.mem_flatten, List.mem_map] at hy
    rcases hy with ⟨l, ⟨o, ho, rfl⟩, hyl⟩
    rw [cleanupEntry] at hyl
    split_ifs at hyl <;> simp at hyl <;>
      exact hyl ▸ List.mem_map_of_mem _ ho
  -- membership in the final store's alias state
  have hmemStore : ∀ x al : String,
      ((x, al) ∈ (config.Roll pb fail t s).store.aliases ↔
        ((x, al) ∈ (Store.apply
            (Store.apply s (Op.createIndex (config.NextIndex t)
              (config.Settings.getD [])))
            (Op.updateAliases (config.rollPlan (config.NextIndex t)
              (config.OldIndexNames s)).actions)).aliases ∧
         ¬(config.DeleteOldIndexes = true ∧
           x ∈ (config.rollPlan (config.NextIndex t)
             (config.OldIndexNames s)).cleanup))) := by
    intro x al
    rw [hroll, runOps_store_eq_foldl fail _ s hOk2]
    simp only [IndexConfig.rollOps]
    rw [List.foldl_append, List.foldl_append, List.foldl_cons, List.foldl_cons,
      List.foldl_nil, foldl_apply_demotion _ _ (rollOps_tail_demotion config _),
      mid_aliases_iff]
  -- membership after the creation and the alias batch
  have hmem2 : ∀ x al : String,
      ((x, al) ∈ (Store.apply
          (Store.apply s (Op.createIndex (config.NextIndex t)
            (config.Settings.getD [])))
          (Op.updateAliases (config.rollPlan (config.NextIndex t)
            (config.OldIndexNames s)).actions)).aliases ↔
        (((x, al) ∈ s.aliases ∨
            (x = config.NextIndex t ∧ al = config.TargetIndex) ∨
            (x = config.NextIndex t ∧ al = searchAliasName config)) ∧
          ¬(al = config.TargetIndex ∧
            x ∈ (config.OldIndexNames s).map (·.Name)) ∧
          ¬(al = searchAliasName config ∧
            x ∈ ((config.OldIndexNames s).take
              (retireCount config (config.OldIndexNames s).length)).map
                (·.Name)))) := by
    intro x al
    rw [apply_updateAliases, hacts, batch_mem_iff, apply_create_aliases]
  -- write-handle characterization after the batch
  have hW2 : ∀ x : String,
      ((x, config.TargetIndex) ∈ (Store.apply
          (Store.apply s (Op.createIndex (config.NextIndex t)
            (config.Settings.getD [])))
          (Op.updateAliases (config.rollPlan (config.NextIndex t)
            (config.OldIndexNames s)).actions)).aliases ↔
        x = config.NextIndex t) := by
    intro x
    rw [hmem2]
    constructor
    · rintro ⟨h1, h2, _⟩
      rcases h1 with hmem | ⟨rfl, _⟩ | ⟨rfl, _⟩
      · exact absurd ⟨rfl, hClosure _ hmem (Or.inl rfl)⟩ h2
      · rfl
      · rfl
    · rintro rfl
      refine ⟨Or.inr (Or.inl ⟨rfl, rfl⟩), ?_, ?_⟩
      · rintro ⟨_, hmem⟩; exact hNext hmem
      · rintro ⟨_, hmem⟩
        exact hNext (List.map_subset _ (List.take_subset _ _) hmem)
  -- search-handle characterization after the batch
  have hS2 : ∀ x : String,
      ((x, searchAliasName config) ∈ (Store.apply
          (Store.apply s (Op.createIndex (config.NextIndex t)
            (config.Settings.getD [])))
          (Op.updateAliases (config.rollPlan (config.NextIndex t)
            (config.OldIndexNames s)).actions)).aliases ↔
        (x = config.NextIndex t ∨
          x ∈ ((config.OldIndexNames s).drop
            (retireCount config (config.OldIndexNames s).length)).map
              (·.Name))) := by
    intro x
    rw [hmem2]
    constructor
    · rintro ⟨h1, _, h3⟩
      rcases h1 with hmem | ⟨rfl, _⟩ | ⟨rfl, _⟩
      · right
        have hxold := hClosure _ hmem (Or.inr rfl)
        rw [hsplit, List.mem_append] at hxold
        rcases hxold with h | h
        · exact absurd ⟨rfl, h⟩ h3
        · exact h
      · exact Or.inl rfl
      · exact Or.inl rfl
    · rintro (rfl | hx)
      · refine ⟨Or.inr (Or.inr ⟨rfl, rfl⟩), ?_, ?_⟩
        · rintro ⟨_, hmem⟩; exact hNext hmem
        · rintro ⟨_, hmem⟩
          exact hNext (List.map_subset _ (List.take_subset _ _) hmem)
      · refine ⟨Or.inl (hSearch x hx), ?_, ?_⟩
        · rintro ⟨hal, _⟩; exact hWne hal
        · rintro ⟨_, hmem⟩
          exact hdisj hmem hx
  -- the retired prefix never contains the new name or a kept name
  have hNextClean : config.NextIndex t ∉ (config.rollPlan (config.NextIndex t)
      (config.OldIndexNames s)).cleanup := by
    intro hy
    exact hNext (List.map_subset _ (List.take_subset _ _) (hcleanSub _ hy))
  -- final write-handle characterization
  have hWfin : ∀ x : String,
      ((x, config.TargetIndex) ∈ (config.Roll pb fail t s).store.aliases ↔
        x = config.NextIndex t) := by
    intro x
    rw [hmemStore, hW2]
    constructor
    · rintro ⟨h, _⟩; exact h
    · rintro rfl
      exact ⟨rfl, by rintro ⟨_, hy⟩; exact hNextClean hy⟩
  -- final search-handle characterization
  have hSfin : ∀ x : String,
      ((x, searchAliasName config) ∈ (config.Roll pb fail t s).store.aliases ↔
        (x = config.NextIndex t ∨
          x ∈ ((config.OldIndexNames s).drop
            (retireCount config (config.OldIndexNames s).length)).map
              (·.Name))) := by
    intro x
    rw [hmemStore, hS2]
    constructor
    · rintro ⟨h, _⟩; exact h
    · intro h
      refine ⟨h, ?_⟩
      rintro ⟨_, hy⟩
      rcases h with rfl | hx
      · exact hNextClean hy
      · exact hdisj (hcleanSub _ hy) hx
  refine ⟨hWfin, hSfin, ?_, ?_⟩
  · -- cardinality of the search window
    have hdropNodup : (((config.OldIndexNames s).drop
        (retireCount config (config.OldIndexNames s).length)).map
          (·.Name)).Nodup := by
      rw [List.map_drop]
      exact List.Nodup.sublist (List.drop_sublist _ _) hNodup
    have hset : (((config.Roll pb fail t s).store.aliases.filter
        (fun p => decide (p.2 = searchAliasName config))).map
          Prod.fst).toFinset =
        insert (config.NextIndex t)
          (((config.OldIndexNames s).drop
            (retireCount config (config.OldIndexNames s).length)).map
              (·.Name)).toFinset := by
      apply Finset.ext
      intro y
      simp only [List.mem_toFinset, List.mem_map, List.mem_filter,
        Finset.mem_insert, decide_eq_true_eq]
      constructor
      · rintro ⟨⟨p1, p2⟩, ⟨hp, rfl⟩, rfl⟩
        rcases (hSfin p1).mp hp with h | h
        · exact Or.inl h
        · exact Or.inr (List.mem_map.mp h)
      · rintro (rfl | hy)
        · exact ⟨(config.NextIndex t, searchAliasName config),
            ⟨(hSfin (config.NextIndex t)).mpr (Or.inl rfl), rfl⟩, rfl⟩
        · exact ⟨(y, searchAliasName config),
            ⟨(hSfin y).mpr (Or.inr (List.mem_map.mpr hy)), rfl⟩, rfl⟩
    rw [hset, Finset.card_insert_of_not_mem
      (by simp only [List.mem_toFinset]
          intro hmem
          exact hNext (List.map_subset _ (List.drop_subset _ _) hmem)),
      List.toFinset_card_of_nodup hdropNodup]
    have hlen1 : (((config.OldIndexNames s).drop
        (retireCount config (config.OldIndexNames s).length)).map
          (·.Name)).length =
        (config.OldIndexNames s).length -
          retireCount config (config.OldIndexNames s).length := by
      rw [List.length_map, List.length_drop]
    rw [hlen1, retireCount]
    have hm : 1 ≤ config.IndexesToAliasForSearch.toNat := by omega
    rcases Nat.le_total config.IndexesToAliasForSearch.toNat
      ((config.OldIndexNames s).length + 1) with hle | hle
    · rw [min_eq_left hle]; omega
    · rw [min_eq_right hle]; omega
  · -- no handle outside the window
    intro x hne hnd
    rintro (h | h)
    · exact hne ((hWfin x).mp h)
    · rcases (hSfin x).mp h with rfl | hx
      · exact hne rfl
      · exact hnd hx

/-- Witness for C1: rolling `cfgDemo` (fanout 2) at `t0` over `storeDemo`
(two old partitions) — the write handle moves to the new partition, the
search handle spans the new partition and `t_2021`, the search-holder count
is `min 2 3 = 2`, and `t_2020` (retired) holds neither handle. -/
theorem claim_C1_witness :
    (∀ x : String, ((x, cfgDemo.TargetIndex) ∈
        (cfgDemo.Roll pbOk (fun _ => false) t0 storeDemo).store.aliases ↔
      x = cfgDemo.NextIndex t0)) ∧
    (∀ x : String, ((x, searchAliasName cfgDemo) ∈
        (cfgDemo.Roll pbOk (fun _ => false) t0 storeDemo).store.aliases ↔
      (x = cfgDemo.NextIndex t0 ∨
        x ∈ ((cfgDemo.OldIndexNames storeDemo).drop
          (retireCount cfgDemo
            (cfgDemo.OldIndexNames storeDemo).length)).map (·.Name)))) ∧
    ((((cfgDemo.Roll pbOk (fun _ => false) t0 storeDemo).store.aliases.filter
        (fun p => decide (p.2 = searchAliasName cfgDemo))).map
          Prod.fst).toFinset.card =
      min cfgDemo.IndexesToAliasForSearch.toNat
        ((cfgDemo.OldIndexNames storeDemo).length + 1)) ∧
    (∀ x : String, x ≠ cfgDemo.NextIndex t0 →
      x ∉ ((cfgDemo.OldIndexNames storeDemo).drop
        (retireCount cfgDemo
          (cfgDemo.OldIndexNames storeDemo).length)).map (·.Name) →
      ¬((x, cfgDemo.TargetIndex) ∈
          (cfgDemo.Roll pbOk (fun _ => false) t0 storeDemo).store.aliases ∨
        (x, searchAliasName cfgDemo) ∈
          (cfgDemo.Roll pbOk (fun _ => false) t0 storeDemo).store.aliases)) :=
  claim_C1 cfgDemo pbOk (fun _ => false) t0 storeDemo
    (Or.inl ⟨rfl, by decide⟩)
    (by decide) (by decide) (by decide) (by decide) (by decide) (by decide)

end Esroll
